import Mathlib

/-!
Verification development for the mcse-snakemake-workflow-service repository.

The Python sources under `src/BA_Code/Agent/` are shallowly embedded here:
pure functions become Lean functions over `List Char` / `String`, machine
file-system interaction becomes explicit state passing, and code that can
raise an uncaught exception returns `Except`/`Option`. Python library
primitives that the code calls (`int(...)`, `float(...)`, `str.strip`,
`str.upper`, `str.isdigit`, `str.isnumeric`, substring `in`, `str.replace`)
are modelled by the `py`-prefixed helpers below, restricted to the ASCII
forms the program actually feeds them.
-/

namespace Snaked

/-- Whitespace as Python's `str.strip` / regex `\s` treat it (ASCII forms:
space, tab, newline, carriage return, vertical tab, form feed). -/
def isPySpace (c : Char) : Bool :=
  c.toNat = 32 || c.toNat = 9 || c.toNat = 10 || c.toNat = 13 || c.toNat = 11 || c.toNat = 12

/-- ASCII decimal digit, as Python's `str.isdigit` / regex `\d` (ASCII forms). -/
def pyIsDigit (c : Char) : Bool :=
  48 ≤ c.toNat && c.toNat ≤ 57

/-- ASCII word character, regex `\w` (letters, digits, underscore). -/
def isWordChar (c : Char) : Bool :=
  pyIsDigit c || (65 ≤ c.toNat && c.toNat ≤ 90) || (97 ≤ c.toNat && c.toNat ≤ 122) ||
    c.toNat = 95

/-- Python `str.upper` on one character (ASCII range). -/
def pyUpperChar (c : Char) : Char :=
  if 97 ≤ c.toNat && c.toNat ≤ 122 then Char.ofNat (c.toNat - 32) else c

/-- Python `str.strip()`: drop whitespace from both ends. -/
def pyStrip (l : List Char) : List Char :=
  ((l.dropWhile isPySpace).reverse.dropWhile isPySpace).reverse

/-- Python `str.rstrip("\n")`: drop trailing newlines only. -/
def rstripNL (l : List Char) : List Char :=
  (l.reverse.dropWhile (fun c => c = '\n')).reverse

/-- Value of a list of decimal digit characters, most significant first. -/
def digitsToNat (ds : List Char) : Nat :=
  ds.foldl (fun a c => a * 10 + (c.toNat - 48)) 0

/-- Python `str.split(sep)` for a one-character separator: keeps empty parts. -/
def splitOnChar (sep : Char) : List Char → List (List Char)
  | [] => [[]]
  | c :: cs =>
    if c = sep then [] :: splitOnChar sep cs
    else
      match splitOnChar sep cs with
      | [] => [[c]]
      | g :: gs => (c :: g) :: gs

/-- Python `int(s)` on a string: strip, optional sign, nonempty digit run;
anything else raises `ValueError`, modelled as `none`. -/
def pyInt? (s : List Char) : Option Int :=
  let t := pyStrip s
  if t.head? = some '-' then
    let ds := t.tail
    if !ds.isEmpty && ds.all pyIsDigit then some (-(digitsToNat ds : Int)) else none
  else if t.head? = some '+' then
    let ds := t.tail
    if !ds.isEmpty && ds.all pyIsDigit then some (digitsToNat ds) else none
  else if !t.isEmpty && t.all pyIsDigit then some (digitsToNat t) else none

/-- Python `float(s)` for the plain decimal forms the program feeds it
(optional sign, integer part, optional fractional part), as an exact scaled
decimal: `(m, e)` stands for the value `m / 10 ^ e`. Exotic float syntax
(exponents, inf/nan) is outside the inputs this program parses. `none`
models a raised `ValueError`. -/
def pyFloat? (s : List Char) : Option (Int × Nat) :=
  let t := pyStrip s
  let neg : Bool := decide (t.head? = some '-')
  let t1 := if t.head? = some '-' ∨ t.head? = some '+' then t.tail else t
  let ip := t1.takeWhile pyIsDigit
  let rest := t1.dropWhile pyIsDigit
  let signed : Int → Int := fun m => if neg then -m else m
  if rest.isEmpty then
    if ip.isEmpty then none else some (signed (digitsToNat ip), 0)
  else if rest.head? = some '.' ∧ rest.tail.all pyIsDigit ∧
          (!ip.isEmpty || !rest.tail.isEmpty) then
    some (signed (digitsToNat (ip ++ rest.tail)), rest.tail.length)
  else none

/-- Python `int(x)` on the value `m / 10 ^ e`: truncation toward zero. -/
def truncScaled (m : Int) (e : Nat) : ℤ :=
  Int.tdiv m ((10 : Int) ^ e)

/-- Decimal digits of a natural number, via fuel (fuel `n+1` always suffices). -/
def natToStrAux : Nat → Nat → List Char
  | 0, _ => []
  | fuel + 1, n =>
    if n < 10 then [Char.ofNat (48 + n)]
    else natToStrAux fuel (n / 10) ++ [Char.ofNat (48 + n % 10)]

/-- Python `str(n)` for a natural number. -/
def natToStr (n : Nat) : String :=
  ⟨natToStrAux (n + 1) n⟩

/-- Python `str(i)` for an integer. -/
def intToStr : Int → String
  | .ofNat n => natToStr n
  | .negSucc n => "-" ++ natToStr (n + 1)

/-! ## snakeD.py: resource parsers (`parse_time_to_minutes`, `parse_mem_to_mb`)
and the per-cpu memory computation and profile lines of `ensure_profile`. -/

/-- `snakeD.parse_time_to_minutes`: HH:MM:SS to minutes; any nonzero seconds
add one minute; the result is clamped to at least 1; unparsable input
(wrong number of `:`-separated fields, or a field `int()` rejects) gives 60. -/
def parse_time_to_minutes (time_str : String) : Int :=
  let parts := splitOnChar ':' (pyStrip time_str.toList)
  match parts with
  | [p1, p2, p3] =>
    match pyInt? p1, pyInt? p2, pyInt? p3 with
    | some h, some m, some s =>
      let total := h * 60 + m
      let total := if s > 0 then total + 1 else total
      if total < 1 then 1 else total
    | _, _, _ => 60
  | _ => 60

/-- `snakeD.parse_mem_to_mb`: strip and uppercase; trailing `G` scales by
1024, trailing `M` keeps the value, otherwise the whole string is parsed as
a bare number; empty or unparsable gives `none`. -/
def parse_mem_to_mb (mem_str : String) : Option Int :=
  let s := (pyStrip mem_str.toList).map pyUpperChar
  if s.isEmpty then none
  else if s.getLast? = some 'G' then
    (pyFloat? s.dropLast).map (fun p => truncScaled (p.1 * 1024) p.2)
  else if s.getLast? = some 'M' then
    (pyFloat? s.dropLast).map (fun p => truncScaled p.1 p.2)
  else (pyFloat? s).map (fun p => truncScaled p.1 p.2)

/-- The per-cpu memory computation of `snakeD.ensure_profile` (its
`mem_mb_per_cpu` local): `int(cpus)` failing gives `none`; cpus below 1 are
clamped to 1; with a parsed total, `max(1, int(total / cpus))` (Python's
float division of these integers truncates like `Int.tdiv` on the program's
value range). `none` when the total memory was unparsable. -/
def mem_mb_per_cpu (total_mem_mb : Option Int) (cpus : String) : Option Int :=
  match pyInt? cpus.toList with
  | none => none
  | some c =>
    let ci := if c < 1 then 1 else c
    match total_mem_mb with
    | none => none
    | some t => some (max 1 (Int.tdiv t ci))

/-- The `requested_resources` object of a run, each key optional. -/
structure Resources where
  job_name : Option String
  partition : Option String
  time : Option String
  cpus_per_task : Option String
  mem : Option String
deriving DecidableEq

/-- Resources with no key set. -/
def emptyResources : Resources := ⟨none, none, none, none, none⟩

/-- Python `d.get(k) or default`: the default also replaces an empty string,
since `or` tests truthiness. -/
def orDefault (v : Option String) (d : String) : String :=
  match v with
  | some s => if s = "" then d else s
  | none => d

/-- The `config.yaml` lines `snakeD.ensure_profile` writes (its `lines`
list, joined with newlines in the source). `job_name` is read but never
emitted. The `cpus_per_task` line renders `int(cpus)` when `str.isdigit`
holds and 1 otherwise; the `mem_mb_per_cpu` line is omitted when the total
memory could not be parsed. -/
def ensure_profile_lines (r : Resources) : List String :=
  let partition := orDefault r.partition "medium"
  let time_limit := orDefault r.time "01:00:00"
  let cpus := orDefault r.cpus_per_task "1"
  let mem := orDefault r.mem "2G"
  let runtime_min := parse_time_to_minutes time_limit
  let total_mem_mb := parse_mem_to_mb mem
  let mpc := mem_mb_per_cpu total_mem_mb cpus
  ["executor: slurm", "jobs: 50", "default-resources:",
   "  slurm_partition: \"" ++ partition ++ "\"",
   "  runtime: " ++ intToStr runtime_min,
   "  cpus_per_task: " ++
     intToStr (if !cpus.toList.isEmpty && cpus.toList.all pyIsDigit
               then (pyInt? cpus.toList).getD 1 else 1)]
  ++ (match mpc with
      | some v => ["  mem_mb_per_cpu: " ++ intToStr v]
      | none => [])

/-! ## Helper lemmas about the character-level primitives. -/

/-- Key rendered in front of the per-cpu memory line of a generated profile. -/
def memPerCpuKey : List Char := "  mem_mb_per_cpu".toList

/-! ## snakeD.py: the status document data model and `pick_queued_run`.

A status.json document is modelled by `Status`: `runs` is an association
list in JSON-object insertion order (`none` models a missing key or a
non-object value), and every nested key the daemon may find absent is an
`Option`. `active_run_id` is the integer the daemon itself writes
(`int(run_id)`); `str(active)` is `intToStr`. -/

/-- The `slurm` sub-object of a run (`SlurmSubmissionRecord`). -/
structure SlurmRecord where
  executor : String
  job_ids : List Nat
  jobs_submitted : Nat
  last_update : Option String
deriving DecidableEq

/-- One run object inside `status.json["runs"]`; `started` and `finished`
are the keys of its `timestamps` sub-object, `log_snakemake` the
`logs.snakemake` key. -/
structure Run where
  state : Option String
  snakefile : Option String
  requested_resources : Option Resources
  started : Option String
  finished : Option String
  log_snakemake : Option String
  slurm : Option SlurmRecord
  snakemake_exit_code : Option Int
deriving DecidableEq

/-- The `{}` run object `dict.setdefault` creates. -/
def emptyRun : Run := ⟨none, none, none, none, none, none, none, none⟩

/-- A parsed status.json document (the keys the daemon reads and writes). -/
structure Status where
  job_dir : Option String
  active_run_id : Option Int
  runs : Option (List (String × Run))
deriving DecidableEq

/-- Run ids whose state is exactly `"QUEUED"` (`robj.get("state", "")`),
in document order: the `queued` list of `pick_queued_run`. -/
def queuedOf (runs : List (String × Run)) : List String :=
  (runs.filter fun p => p.2.state.getD "" = "QUEUED").map Prod.fst

/-- The `queued` list `pick_queued_run` builds for a whole document. -/
def queuedIds (s : Status) : List String :=
  match s.runs with
  | none => []
  | some rs => queuedOf rs

/-- First element of `x :: xs` with the least key: the head of Python's
stable `sorted(x :: xs, key)`. -/
def minBy {κ : Type} [LinearOrder κ] (key : String → κ) (x : String) (xs : List String) :
    String :=
  xs.foldl (fun b q => if key q < key b then q else b) x

/-- `sorted(queued, key=int)[0]`, falling back to `sorted(queued)[0]` when
`int()` raises on any element, exactly as the `try/except` does. -/
def pickLowest (queued : List String) : Option String :=
  match queued with
  | [] => none
  | x :: xs =>
    if (x :: xs).all (fun q => (pyInt? q.toList).isSome) then
      some (minBy (fun q => (pyInt? q.toList).getD 0) x xs)
    else
      some (minBy (fun q => q) x xs)

/-- `snakeD.pick_queued_run` over the fields it reads: `none` for a missing,
non-object or empty `runs`; sticky preference for a queued `active_run_id`;
otherwise the lowest queued id. -/
def pickCore (runs? : Option (List (String × Run))) (active : Option Int) : Option String :=
  match runs? with
  | none => none
  | some runs =>
    if runs.isEmpty then none
    else
      let queued := queuedOf runs
      if queued.isEmpty then none
      else
        match active with
        | some a => if intToStr a ∈ queued then some (intToStr a) else pickLowest queued
        | none => pickLowest queued

/-- `snakeD.pick_queued_run` on a document. -/
def pick_queued_run (status : Status) : Option String :=
  pickCore status.runs status.active_run_id

/-- A run object whose state is QUEUED and every other key absent. -/
def queuedRun : Run := { emptyRun with state := some "QUEUED" }

/-! ## snakeD.py: the log scraper `extract_slurm_job_ids_from_log`.

The two compiled patterns are `\bSLURM\s+jobid\s+(\d+)\b` and
`\bSubmitted\s+batch\s+job\s+(\d+)\b`, both IGNORECASE, applied with
`re.search` (leftmost match) to each line; `re` is modelled by a direct
scanner: keywords are matched caseless, `\s+` eats one or more whitespace
characters, `\d+` takes a maximal digit run, and `\b` holds when the
neighbouring character is not a word character (or the string ends). -/

/-- Consume a caseless literal keyword, returning the rest of the line. -/
def eatCaseless : List Char → List Char → Option (List Char)
  | [], s => some s
  | _ :: _, [] => none
  | k :: ks, c :: cs => if pyUpperChar c = pyUpperChar k then eatCaseless ks cs else none

/-- Consume `\s+`: one or more whitespace characters (greedy). -/
def eatSpaces1 : List Char → Option (List Char)
  | [] => none
  | c :: cs => if isPySpace c then some (cs.dropWhile isPySpace) else none

/-- Consume the keywords interleaved with `\s+`. -/
def matchKws : List (List Char) → List Char → Option (List Char)
  | [], s => some s
  | [kw], s => eatCaseless kw s
  | kw :: kws, s =>
    match eatCaseless kw s with
    | none => none
    | some s1 =>
      match eatSpaces1 s1 with
      | none => none
      | some s2 => matchKws kws s2

/-- Try the whole pattern at the current position: keywords, `\s+`, a
nonempty maximal digit run, then a trailing word boundary. -/
def matchHere (kws : List (List Char)) (s : List Char) : Option Nat :=
  match matchKws kws s with
  | none => none
  | some s1 =>
    match eatSpaces1 s1 with
    | none => none
    | some s2 =>
      let ds := s2.takeWhile pyIsDigit
      let rest := s2.dropWhile pyIsDigit
      if ds.isEmpty then none
      else
        match rest with
        | [] => some (digitsToNat ds)
        | c :: _ => if isWordChar c then none else some (digitsToNat ds)

/-- `re.search`: the leftmost position where the pattern matches, with the
leading `\b` tracked through `prevWord`, the wordness of the previous
character (`false` at the start of the line). -/
def searchPat (kws : List (List Char)) : Bool → List Char → Option Nat
  | _, [] => none
  | prevWord, c :: rest =>
    match (if prevWord then none else matchHere kws (c :: rest)) with
    | some n => some n
    | none => searchPat kws (isWordChar c) rest

/-- Keywords of the plugin-style announcement `... SLURM jobid N ...`. -/
def pluginKws : List (List Char) := ["SLURM".toList, "jobid".toList]

/-- Keywords of the classic announcement `Submitted batch job N`. -/
def sbatchKws : List (List Char) := ["Submitted".toList, "batch".toList, "job".toList]

/-- What one loop iteration of `extract_slurm_job_ids_from_log` adds for a
line: the first plugin-style match, else (`continue` skipped) the first
classic match, else nothing. -/
def lineId? (line : List Char) : Option Nat :=
  match searchPat pluginKws false line with
  | some n => some n
  | none => searchPat sbatchKws false line

/-- Python `sorted(set(l))`: the distinct elements in ascending order. -/
def sortedUniq (l : List Nat) : List Nat :=
  List.insertionSort (· ≤ ·) l.dedup

/-- `snakeD.extract_slurm_job_ids_from_log`: a missing or unreadable log
(`none`) yields `[]`; otherwise the sorted set of the per-line matches. -/
def extract_slurm_job_ids_from_log (log : Option (List String)) : List Nat :=
  match log with
  | none => []
  | some lines => sortedUniq (lines.filterMap fun line => lineId? line.toList)

/-- Modelled from the spec for the refinement comparison of the scraper:
"extracts all integers matched by either pattern" — every position of every
line where either pattern matches contributes its integer, not only the
first per line. -/
def searchAllPat (kws : List (List Char)) : Bool → List Char → List Nat
  | _, [] => []
  | prevWord, c :: rest =>
    match (if prevWord then none else matchHere kws (c :: rest)) with
    | some n => n :: searchAllPat kws (isWordChar c) rest
    | none => searchAllPat kws (isWordChar c) rest

/-- Modelled from the spec for the refinement comparison of the scraper: the
sorted set of all integers matched by either pattern anywhere in the log. -/
def specAllMatchedIds (log : Option (List String)) : List Nat :=
  match log with
  | none => []
  | some lines =>
    sortedUniq (lines.foldr (fun line acc =>
      searchAllPat pluginKws false line.toList ++
      searchAllPat sbatchKws false line.toList ++ acc) [])

/-! ## snakeD.py: the daemon (`handle_job` and `main_loop`).

`handle_job` is embedded in its three phases. The launch phase (everything
up to `subprocess.Popen`) is `handle_job` below, returning the ordered
daemon steps it performs; one iteration of the monitor loop is
`monitorIter`; the finalization after the engine exits is `finalizeRun`.
Uncaught Python exceptions are `Except.error` / `none`. -/

/-- The executor label the daemon writes into every slurm record. -/
def executorName : String := "snakemake-executor-plugin-slurm"

/-- Mutation of one key of the runs object: Python's
`runs.setdefault(rid, {})` followed by field assignments — existing entries
for `rid` are updated in place, a missing entry is created from `{}`. -/
def setRun (rs : List (String × Run)) (rid : String) (f : Run → Run) :
    List (String × Run) :=
  if rs.any (fun p => p.1 = rid) then
    rs.map (fun p => if p.1 = rid then (p.1, f p.2) else p)
  else rs ++ [(rid, f emptyRun)]

/-- First entry of the runs object with the given id (`runs.get(rid)`). -/
def findRun : List (String × Run) → String → Option Run
  | [], _ => none
  | p :: ps, rid => if p.1 = rid then some p.2 else findRun ps rid

/-- The run-object mutation of `handle_job` lines 373-385: mark RUNNING,
stamp `started`, record the log name, install the empty slurm record. -/
def launchRunMutation (rid : String) (ts : String) (r : Run) : Run :=
  { r with
    state := some "RUNNING",
    started := some ts,
    log_snakemake := some ("snakemake_run" ++ rid ++ ".log"),
    slurm := some ⟨executorName, [], 0, none⟩ }

/-- The in-memory document mutation of `handle_job` lines 369-385, applied
just before the pre-spawn persist: apply `launchRunMutation` to the selected
run and set `active_run_id := int(run_id)`. -/
def launchUpdate (status : Status) (rid : String) (ridInt : Int) (ts : String) : Status :=
  { status with
    active_run_id := some ridInt,
    runs := some (setRun (status.runs.getD []) rid (launchRunMutation rid ts)) }

/-- The run-object mutation of one monitor-loop write: the slurm record is
replaced wholesale with the scraped ids, their count and the timestamp. -/
def monitorRunMutation (ids : List Nat) (ts : String) (r : Run) : Run :=
  { r with slurm := some ⟨executorName, ids, ids.length, some ts⟩ }

/-- The document mutation of one monitor-loop write (lines 408-420), applied
to the freshly reloaded document. -/
def monitorUpdate (disk : Status) (rid : String) (ids : List Nat) (ts : String) : Status :=
  { disk with
    runs := some (setRun (disk.runs.getD []) rid (monitorRunMutation ids ts)) }

/-- One iteration of the monitor loop (lines 399-426): scrape the log, and
only when the id set differs from the last-observed snapshot reload the
document from disk, merge, and persist (`some` = a write happened). -/
def monitorIter (rid : String) (last : Finset Nat) (disk : Status)
    (log : Option (List String)) (ts : String) : Option Status × Finset Nat :=
  let ids := extract_slurm_job_ids_from_log log
  if ids.toFinset = last then (none, last)
  else (some (monitorUpdate disk rid ids ts), ids.toFinset)

/-- The finalization of `handle_job` (lines 434-452) on the freshly reloaded
document: `none` models the `KeyError` raised when the reloaded document no
longer carries the run. The run gets its terminal state from the exit code
(0 gives FINISHED, otherwise FAILED), the `finished` stamp, the exit code,
and one final scrape into the slurm record. -/
def finalizeRunObj (exit_code : Int) (log : Option (List String)) (ts : String) (r : Run) :
    Run :=
  { r with
    state := some (if exit_code = 0 then "FINISHED" else "FAILED"),
    finished := some ts,
    snakemake_exit_code := some exit_code,
    slurm := some ⟨executorName, extract_slurm_job_ids_from_log log,
      (extract_slurm_job_ids_from_log log).length, some ts⟩ }

/-- The reloaded document after finalization, `none` for the KeyError case. -/
def finalizeRun (disk : Status) (rid : String) (exit_code : Int)
    (log : Option (List String)) (ts : String) : Option Status :=
  match disk.runs with
  | none => none
  | some rs =>
    if rs.any (fun p => p.1 = rid) then
      some { disk with runs := some (rs.map fun p =>
        if p.1 = rid then (p.1, finalizeRunObj exit_code log ts p.2) else p) }
    else none

/-- What the daemon finds on disk for one job's status file. -/
inductive StatusFileRead
  | missing
  | unparsable
  | parsed (s : Status)
deriving DecidableEq

/-- The filesystem surroundings `handle_job` consults for one job. -/
structure JobFS where
  status_read : StatusFileRead
  job_dir_exists : Bool
  snakefiles_present : List String
deriving DecidableEq

/-- The externally visible steps of the launch phase, in program order. -/
inductive DaemonStep
  | persist (doc : Status)
  | writeProfile (cfg : List String)
  | spawnEngine (run_id : String)
deriving DecidableEq

/-- `snakeD.handle_job` up to and including the engine spawn, as the ordered
list of steps it performs plus its `True`/`False` result. A missing status
file, missing or falsy `job_dir`, no queued run, or missing snakefile log
and skip (`False`, no steps). An unparsable status file raises
`json.JSONDecodeError`, and a queued run id `int()` rejects raises
`ValueError`: both uncaught, modelled as `Except.error`. -/
def handle_job (fs : JobFS) (ts : String) : Except Unit (List DaemonStep × Bool) :=
  match fs.status_read with
  | .missing => .ok ([], false)
  | .unparsable => .error ()
  | .parsed status =>
    match status.job_dir with
    | none => .ok ([], false)
    | some jd =>
      if jd = "" then .ok ([], false)
      else if !fs.job_dir_exists then .ok ([], false)
      else
        match pick_queued_run status with
        | none => .ok ([], false)
        | some rid =>
          let run := (findRun (status.runs.getD []) rid).getD emptyRun
          match run.snakefile with
          | none => .ok ([], false)
          | some sf =>
            if sf = "" then .ok ([], false)
            else if sf ∉ fs.snakefiles_present then .ok ([], false)
            else
              match pyInt? rid.toList with
              | none => .error ()
              | some ridInt =>
                let doc := launchUpdate status rid ridInt ts
                .ok ([.persist doc,
                      .writeProfile (ensure_profile_lines
                        (run.requested_resources.getD emptyResources)),
                      .spawnEngine rid], true)

/-- One cycle of `snakeD.main_loop` over the discovered job directories: the
`for` body calls `handle_job` with no `try/except`, so the first uncaught
exception aborts the whole loop (and the daemon process). -/
def processJobs (jobs : List JobFS) (ts : String) :
    Except Unit (List (List DaemonStep × Bool)) :=
  match jobs with
  | [] => .ok []
  | fs :: rest =>
    match handle_job fs ts with
    | .error e => .error e
    | .ok r =>
      match processJobs rest ts with
      | .error e => .error e
      | .ok rs => .ok (r :: rs)

/-- State of a run as the daemon reads it from a document. -/
def runStateOf (s : Status) (rid : String) : Option String :=
  (findRun (s.runs.getD []) rid).bind fun r => r.state

/-- Finish timestamp of a run inside a document. -/
def runFinishedOf (s : Status) (rid : String) : Option String :=
  (findRun (s.runs.getD []) rid).bind fun r => r.finished

/-- The concrete pair of jobs refuting C2: the first carries a corrupt
status document, the second is healthy and launchable. -/
def unparsableJob : JobFS := ⟨.unparsable, true, []⟩

/-- A healthy status document whose single run is QUEUED with a snakefile. -/
def healthyStatus : Status :=
  ⟨some "/jd", none, some [("1", { queuedRun with snakefile := some "wf.smk" })]⟩

/-- A healthy, launchable job directory. -/
def healthyJob : JobFS := ⟨.parsed healthyStatus, true, ["wf.smk"]⟩

/-! ## snakeD.py: `atomic_write_json`.

`atomic_write_json(path, obj)` performs, at the filesystem level:
`open(path + ".tmp", "w")` — which TRUNCATES the temp file if it already
exists, or creates a fresh one — then `json.dump` through that descriptor,
then `os.replace(tmp_path, path)`, an atomic rename that rebinds the target
path to the temp file's inode and removes the temp binding, raising
`FileNotFoundError` if the temp binding is gone. The model tracks inodes:
paths (`targetIno`, `tmpIno`) are bindings to inodes, a writer's descriptor
keeps pointing at the inode it opened even after a rename moves or unlinks
it, and between a writer's truncating open and the completion of its dump
the opened inode holds a torn prefix (`.truncated`) of its document. All
writers of one document share the single temp path. A writer's program
counter is 0 before its open, 1 while its dump is in flight, 2 after the
dump completes, 3 after a successful replace, 4 after a replace that
raised. A concurrent reader of `path` observes the content of the inode
bound to the target at any point of the schedule. -/

/-- What a filesystem inode can hold: one complete serialized document, or
a torn (possibly empty) prefix of one — the state of a file between a
truncating open and the completion of the dump into it. -/
inductive FileContent
  | absent
  | json (doc : Status)
  | truncated (doc : Status)
deriving DecidableEq

/-- One writer of `atomic_write_json`: its program counter and the inode
its open descriptor points at. -/
structure WriterSt where
  pc : Nat
  fd : Option Nat
deriving DecidableEq

/-- The filesystem as `atomic_write_json` touches it: the inode table, the
fresh-inode counter, the target and temp path bindings, and the writers. -/
structure SaveFS where
  inodes : List (Nat × FileContent)
  nextIno : Nat
  targetIno : Option Nat
  tmpIno : Option Nat
  writers : List WriterSt
deriving DecidableEq

/-- Content of an inode (absent if the inode does not exist). -/
def getIno : List (Nat × FileContent) → Nat → FileContent
  | [], _ => .absent
  | p :: ps, j => if p.1 = j then p.2 else getIno ps j

/-- Overwrite the content of an inode. -/
def setIno (ins : List (Nat × FileContent)) (j : Nat) (c : FileContent) :
    List (Nat × FileContent) :=
  ins.map fun p => if p.1 = j then (p.1, c) else p

/-- One step of writer `i` (`docs.get? i` is its document), chosen by its
program counter: its truncating `open` of the shared temp path when 0, the
completion of its `json.dump` (through its descriptor, wherever that inode
now lives) when 1, its `os.replace` when 2; otherwise nothing. -/
def saveStep (docs : List Status) (fs : SaveFS) (i : Nat) : SaveFS :=
  match docs.get? i, fs.writers.get? i with
  | some d, some w =>
    match w.pc with
    | 0 =>
      match fs.tmpIno with
      | some j =>
        { fs with inodes := setIno fs.inodes j (.truncated d),
                  writers := fs.writers.set i ⟨1, some j⟩ }
      | none =>
        { fs with inodes := fs.inodes ++ [(fs.nextIno, .truncated d)],
                  nextIno := fs.nextIno + 1,
                  tmpIno := some fs.nextIno,
                  writers := fs.writers.set i ⟨1, some fs.nextIno⟩ }
    | 1 =>
      match w.fd with
      | some j => { fs with inodes := setIno fs.inodes j (.json d),
                            writers := fs.writers.set i ⟨2, some j⟩ }
      | none => fs
    | 2 =>
      match fs.tmpIno with
      | some j => { fs with targetIno := some j, tmpIno := none,
                            writers := fs.writers.set i ⟨3, w.fd⟩ }
      | none => { fs with writers := fs.writers.set i ⟨4, w.fd⟩ }
    | _ => fs
  | _, _ => fs

/-- What a concurrent reader of the target path observes. -/
def readTarget (fs : SaveFS) : FileContent :=
  match fs.targetIno with
  | none => .absent
  | some j => getIno fs.inodes j

/-- Run a whole interleaving. -/
def runSched (docs : List Status) (init : SaveFS) (sched : List Nat) : SaveFS :=
  sched.foldl (saveStep docs) init

/-- The filesystem before any save: the target bound to inode 0 with the
previous content, no temp binding, and the writers not yet started. -/
def initFS (c0 : FileContent) (nWriters : Nat) : SaveFS :=
  ⟨[(0, c0)], 1, some 0, none, List.replicate nWriters ⟨0, none⟩⟩

/-- The four filesystem states reachable while a single writer saves `d`
over previous target content `c0`: not started; temp inode opened and torn;
dump complete; renamed into place. -/
def singleWriterStates (c0 : FileContent) (d : Status) : List SaveFS :=
  [⟨[(0, c0)], 1, some 0, none, [⟨0, none⟩]⟩,
   ⟨[(0, c0), (1, .truncated d)], 2, some 0, some 1, [⟨1, some 1⟩]⟩,
   ⟨[(0, c0), (1, .json d)], 2, some 0, some 1, [⟨2, some 1⟩]⟩,
   ⟨[(0, c0), (1, .json d)], 2, some 1, none, [⟨3, some 1⟩]⟩]

/-- Python `os.path.dirname` on a character-level path. -/
def dirnameCL (l : List Char) : List Char :=
  match l.reverse.dropWhile (fun c => c ≠ '/') with
  | [] => []
  | _ :: rest => rest.reverse

/-- The temp location `atomic_write_json` writes first: `path + ".tmp"`. -/
def tmp_path (path : List Char) : List Char :=
  path ++ ".tmp".toList

/-- Document written by the first concurrent writer of the counterexample. -/
def docA : Status := ⟨some "/jd", none, some []⟩

/-- Document written by the second concurrent writer (distinct from `docA`). -/
def docB : Status := ⟨some "/jd", some 1, some []⟩

/-! ## agent.py: the Slurm state prober `control_slurm_job_state` and the
fresh-job path of `main_loop`. -/

/-- Python `sub in s` for a nonempty pattern: some position starts with it. -/
def containsSub (pat : List Char) : List Char → Bool
  | [] => pat.isEmpty
  | c :: cs => pat.isPrefixOf (c :: cs) || containsSub pat cs

/-- Python `s.replace(pat, "")` for a nonempty pattern, via fuel (the input
length plus one always suffices): delete non-overlapping occurrences left to
right. -/
def replaceAllAux : Nat → List Char → List Char → List Char
  | 0, _, s => s
  | _ + 1, _, [] => []
  | fuel + 1, pat, c :: cs =>
    if !pat.isEmpty && pat.isPrefixOf (c :: cs) then
      replaceAllAux fuel pat ((c :: cs).drop pat.length)
    else c :: replaceAllAux fuel pat cs

/-- Python `s.replace(pat, "")`. -/
def replaceAll (pat s : List Char) : List Char :=
  replaceAllAux (s.length + 1) pat s

/-- The accounting text after the preprocessing of `control_slurm_job_state`
(lines 80-82): newlines removed, then every `State` header marker removed. -/
def probeClean (raw : String) : List Char :=
  replaceAll "State".toList (replaceAll ['\n'] raw.toList)

/-- `agent.control_slurm_job_state`, as the ordered list of state strings it
sends upstream via `update_slurm_id_running` for one probed accounting text.
Text containing PENDING or RUNNING sends nothing. Otherwise the `if`s are
not chained: a CANCELLED report and a FAILED report are each sent when their
marker occurs, and then one final report is always sent — COMPLETED when
stripping the COMPLETED markers leaves nothing, ProbFAILED otherwise. (The
optional post-slurm hook runs before these reports and is not modelled.) -/
def probeReports (raw : String) : List String :=
  let r := probeClean raw
  if containsSub "PENDING".toList r || containsSub "RUNNING".toList r then []
  else
    (if containsSub "CANCELLED".toList r then ["CANCELLED"] else []) ++
    (if containsSub "FAILED".toList r then ["FAILED"] else []) ++
    [if (replaceAll "COMPLETED".toList r).isEmpty then "COMPLETED" else "ProbFAILED"]

/-- The fixed submission acknowledgement text of classic `sbatch`. -/
def submittedPrefix : List Char := "Submitted batch job".toList

/-- Python `str.isnumeric` on the ASCII output the scripts produce. -/
def pyIsNumeric (l : List Char) : Bool :=
  !l.isEmpty && l.all pyIsDigit

/-- What the agent reports for a fresh job's captured output: a running
state carrying the parsed cluster id, a FINISHED report, or a crash when the
text after the acknowledgement text is not an integer (`int()` raises). -/
inductive AgentReport
  | batchJobRunning (slurm_id : Int)
  | finished
  | crash
deriving DecidableEq

/-- `agent.execute_function`: the command line is the designated script,
the declared arguments, then the job's own identifier appended. -/
def execute_function_args (home name : String) (args : List String)
    (function_id : Int) : List String :=
  (home ++ "/functions/" ++ name ++ ".sh") :: args ++ [intToStr function_id]

/-- The classification of `agent.main_loop` lines 127-139 on the captured
output: `isBatchJob` holds when the newline-trimmed output is numeric or the
raw output starts with the acknowledgement text; in the latter case the
characters after position 20 of the trimmed output are parsed as the id. -/
def agent_classify (out : List Char) : AgentReport :=
  let trimmed := rstripNL out
  if pyIsNumeric trimmed || submittedPrefix.isPrefixOf out then
    match pyInt? (if submittedPrefix.isPrefixOf out then trimmed.drop 20 else trimmed) with
    | some n => .batchJobRunning n
    | none => .crash
  else .finished

/-- The remote report the fresh-job path makes: `update_slurm_id_running`
with state BatchJobRunning and the id, or `update_job_status` FINISHED. -/
inductive AgentAction
  | reportRunning (slurm_id : Int) (state : String)
  | reportStatus (state : String)
deriving DecidableEq

/-- The upstream call of `agent.main_loop` for a fresh job's output. -/
def agent_fresh_job_action (out : List Char) : Except Unit AgentAction :=
  match agent_classify out with
  | .batchJobRunning n => .ok (.reportRunning n "BatchJobRunning")
  | .finished => .ok (.reportStatus "FINISHED")
  | .crash => .error ()

/-! ## Theorems. -/

theorem dropWhile_eq_self_of_all {p : Char → Bool} {l : List Char}
    (h : ∀ c ∈ l, p c = false) : l.dropWhile p = l := by
  cases l with
  | nil => rfl
  | cons c cs => simp [List.dropWhile, h c (List.mem_cons_self c cs)]

theorem pyStrip_of_all {l : List Char} (h : ∀ c ∈ l, isPySpace c = false) :
    pyStrip l = l := by
  unfold pyStrip
  rw [dropWhile_eq_self_of_all h, dropWhile_eq_self_of_all, List.reverse_reverse]
  intro c hc
  exact h c (List.mem_reverse.mp hc)

theorem takeWhile_eq_self_of_all {p : Char → Bool} {l : List Char}
    (h : ∀ c ∈ l, p c = true) : l.takeWhile p = l := by
  induction l with
  | nil => rfl
  | cons c cs ih =>
    have hc := h c (List.mem_cons_self c cs)
    have ih2 := ih fun x hx => h x (List.mem_cons_of_mem c hx)
    simp [List.takeWhile_cons, hc, ih2]

theorem dropWhile_eq_nil_of_all {p : Char → Bool} {l : List Char}
    (h : ∀ c ∈ l, p c = true) : l.dropWhile p = [] := by
  induction l with
  | nil => rfl
  | cons c cs ih =>
    have hc := h c (List.mem_cons_self c cs)
    have ih2 := ih fun x hx => h x (List.mem_cons_of_mem c hx)
    simp [List.dropWhile_cons, hc, ih2]

theorem isPySpace_of_digit {c : Char} (h : pyIsDigit c = true) : isPySpace c = false := by
  simp only [pyIsDigit, Bool.and_eq_true, decide_eq_true_eq] at h
  simp only [isPySpace, Bool.or_eq_false_iff, decide_eq_false_iff_not]
  omega

theorem digit_ne_sign {c : Char} (h : pyIsDigit c = true) : c ≠ '-' ∧ c ≠ '+' := by
  constructor <;> rintro rfl <;> exact absurd h (by decide)

theorem pyUpperChar_of_digit {c : Char} (h : pyIsDigit c = true) : pyUpperChar c = c := by
  simp only [pyIsDigit, Bool.and_eq_true, decide_eq_true_eq] at h
  unfold pyUpperChar
  rw [if_neg]
  simp only [Bool.and_eq_true, decide_eq_true_eq, not_and]
  omega

/-- `float(...)` on a nonempty all-digit string yields exactly its value. -/
theorem pyFloat?_digits {ds : List Char} (hne : ds ≠ [])
    (hd : ds.all pyIsDigit = true) : pyFloat? ds = some ((digitsToNat ds : Int), 0) := by
  have hall : ∀ c ∈ ds, pyIsDigit c = true := by
    intro c hc; exact List.all_eq_true.mp hd c hc
  have hstrip : pyStrip ds = ds :=
    pyStrip_of_all fun c hc => isPySpace_of_digit (hall c hc)
  obtain ⟨c, cs, rfl⟩ := List.exists_cons_of_ne_nil hne
  have hc := hall c (List.mem_cons_self c cs)
  have hsign := digit_ne_sign hc
  unfold pyFloat?
  rw [hstrip]
  simp only [List.head?_cons, Option.some.injEq, hsign.1, hsign.2, or_self, if_false,
    decide_False, takeWhile_eq_self_of_all hall, dropWhile_eq_nil_of_all hall]
  simp

theorem mem_mb_per_cpu_none (cpus : String) : mem_mb_per_cpu none cpus = none := by
  unfold mem_mb_per_cpu
  cases pyInt? cpus.toList <;> simp

/-- C3, counterexample. The claim's concrete example `"01:30:00" → 91` is
false on the code: ninety minutes have zero leftover seconds, so no extra
minute is added and `parse_time_to_minutes` returns 90. -/
theorem C3_time_to_minutes_counterexample :
    parse_time_to_minutes "01:30:00" = 90 ∧ (90 : Int) ≠ 91 := by
  constructor
  · decide
  · decide

/-- C3 (amended): the time parser converts an `HH:MM:SS` string to whole
minutes rounded up — hours times sixty plus minutes, plus one additional
minute whenever the seconds field is nonzero — with the result clamped to a
minimum of 1; it returns the default 60 for any unparsable or malformed
input. In particular it maps `"01:30:00"` to 90 (not 91), `"00:00:01"` to 1,
and `"bad"` to 60. -/
theorem C3_time_to_minutes :
    parse_time_to_minutes "01:30:00" = 90 ∧
    parse_time_to_minutes "00:00:01" = 1 ∧
    parse_time_to_minutes "bad" = 60 ∧
    parse_time_to_minutes "00:00:00" = 1 ∧
    (∀ (ts : String) (p1 p2 p3 : List Char) (h m s : Int),
      splitOnChar ':' (pyStrip ts.toList) = [p1, p2, p3] →
      pyInt? p1 = some h → pyInt? p2 = some m → pyInt? p3 = some s →
      parse_time_to_minutes ts = max 1 (h * 60 + m + (if 0 < s then 1 else 0))) ∧
    (∀ ts : String, (splitOnChar ':' (pyStrip ts.toList)).length ≠ 3 →
      parse_time_to_minutes ts = 60) ∧
    (∀ (ts : String) (p1 p2 p3 : List Char),
      splitOnChar ':' (pyStrip ts.toList) = [p1, p2, p3] → pyInt? p1 = none →
      parse_time_to_minutes ts = 60) := by
  refine ⟨by decide, by decide, by decide, by decide, ?_, ?_, ?_⟩
  · intro ts p1 p2 p3 h m s hsplit h1 h2 h3
    unfold parse_time_to_minutes
    rw [hsplit]
    simp only [h1, h2, h3]
    rw [Int.max_def]
    split_ifs <;> omega
  · intro ts hlen
    simp only [parse_time_to_minutes]
    split
    · rename_i p1 p2 p3 heq
      rw [heq] at hlen
      simp at hlen
    · rfl
  · intro ts p1 p2 p3 hsplit h1
    unfold parse_time_to_minutes
    rw [hsplit]
    simp only [h1]

theorem pyUpper_map_digits {ds : List Char} (hd : ∀ c ∈ ds, pyIsDigit c = true) :
    ds.map pyUpperChar = ds :=
  (List.map_congr_left fun c hc => pyUpperChar_of_digit (hd c hc)).trans (List.map_id ds)

theorem pyStrip_digits_concat {ds : List Char} (c : Char) (hc : isPySpace c = false)
    (hd : ∀ x ∈ ds, pyIsDigit x = true) : pyStrip (ds ++ [c]) = ds ++ [c] := by
  refine pyStrip_of_all ?_
  intro x hx
  rcases List.mem_append.mp hx with h | h
  · exact isPySpace_of_digit (hd x h)
  · rw [List.mem_singleton.mp h]; exact hc

/-- The three suffix behaviours of `parse_mem_to_mb` on a nonempty digit
string: `G` scales by 1024, `M` and no suffix keep the value. -/
theorem parse_mem_to_mb_digits {ds : List Char} (hne : ds ≠ [])
    (hd : ds.all pyIsDigit = true) :
    parse_mem_to_mb ⟨ds ++ ['G']⟩ = some ((digitsToNat ds : Int) * 1024) ∧
    parse_mem_to_mb ⟨ds ++ ['M']⟩ = some (digitsToNat ds) ∧
    parse_mem_to_mb ⟨ds⟩ = some (digitsToNat ds) := by
  have hall : ∀ c ∈ ds, pyIsDigit c = true := fun c hc => List.all_eq_true.mp hd c hc
  have hfl := pyFloat?_digits hne hd
  have hlast : ∀ c ∈ ds, (c = 'G') = False ∧ (c = 'M') = False := by
    intro c hc
    have h := hall c hc
    constructor <;> · simp only [eq_iff_iff, iff_false]; rintro rfl; exact absurd h (by decide)
  refine ⟨?_, ?_, ?_⟩
  · unfold parse_mem_to_mb
    simp only [String.toList]
    rw [pyStrip_digits_concat 'G' (by decide) hall, List.map_append,
      pyUpper_map_digits hall]
    simp only [List.map_cons, List.map_nil, List.getLast?_concat, List.dropLast_concat]
    rw [if_neg (by simp), if_pos (by decide), hfl]
    simp [truncScaled]
  · unfold parse_mem_to_mb
    simp only [String.toList]
    rw [pyStrip_digits_concat 'M' (by decide) hall, List.map_append,
      pyUpper_map_digits hall]
    simp only [List.map_cons, List.map_nil, List.getLast?_concat, List.dropLast_concat]
    rw [if_neg (by simp), if_neg (by decide), if_pos (by decide), hfl]
    simp [truncScaled]
  · unfold parse_mem_to_mb
    simp only [String.toList]
    rw [pyStrip_of_all fun c hc => isPySpace_of_digit (hall c hc), pyUpper_map_digits hall]
    obtain ⟨c, cs, hds⟩ := List.exists_cons_of_ne_nil hne
    have hlastmem : ∀ x, ds.getLast? = some x → x ∈ ds := by
      intro x hx
      obtain ⟨h, rfl⟩ := List.mem_getLast?_eq_getLast (Option.mem_def.mpr hx)
      exact List.getLast_mem h
    rw [if_neg (by simp [hds]), if_neg ?hg, if_neg ?hm]
    case hg =>
      intro hcontra
      have := (hlast _ (hlastmem _ hcontra)).1
      simp at this
    case hm =>
      intro hcontra
      have := (hlast _ (hlastmem _ hcontra)).2
      simp at this
    rw [hfl]
    simp [truncScaled]

/-- C5: memory conversion in the profile generator. A trailing `G` yields
value times 1024 megabytes, trailing `M` yields the value as-is, no suffix
parses the bare number, and an empty string yields absent. Per-cpu memory is
`max 1 (total / cpus)` truncated, with cpu counts below 1 clamped to 1, and
the per-cpu line is omitted entirely from the generated profile when the
total memory could not be parsed. Concretely `"2G"` gives 2048, `"8000M"`
gives 8000, `""` gives absent, and 4096 MB over 4 cpus gives 1024. -/
theorem C5_memory_and_profile :
    parse_mem_to_mb "2G" = some 2048 ∧
    parse_mem_to_mb "8000M" = some 8000 ∧
    parse_mem_to_mb "" = none ∧
    mem_mb_per_cpu (some 4096) "4" = some 1024 ∧
    (∀ ds : List Char, ds ≠ [] → ds.all pyIsDigit = true →
      parse_mem_to_mb ⟨ds ++ ['G']⟩ = some ((digitsToNat ds : Int) * 1024) ∧
      parse_mem_to_mb ⟨ds ++ ['M']⟩ = some (digitsToNat ds) ∧
      parse_mem_to_mb ⟨ds⟩ = some (digitsToNat ds)) ∧
    (∀ (t c : Int) (cs : String), pyInt? cs.toList = some c → 1 ≤ c →
      mem_mb_per_cpu (some t) cs = some (max 1 (Int.tdiv t c))) ∧
    (∀ (t c : Int) (cs : String), pyInt? cs.toList = some c → c < 1 →
      mem_mb_per_cpu (some t) cs = some (max 1 t)) ∧
    (∀ r : Resources, parse_mem_to_mb (orDefault r.mem "2G") = none →
      ∀ l ∈ ensure_profile_lines r, memPerCpuKey.isPrefixOf l.toList = false) ∧
    (∀ (r : Resources) (v : Int),
      mem_mb_per_cpu (parse_mem_to_mb (orDefault r.mem "2G"))
        (orDefault r.cpus_per_task "1") = some v →
      "  mem_mb_per_cpu: " ++ intToStr v ∈ ensure_profile_lines r) := by
  refine ⟨by decide, by decide, by decide, by decide, fun ds h1 h2 => parse_mem_to_mb_digits h1 h2,
    ?_, ?_, ?_, ?_⟩
  · intro t c cs hc h1
    unfold mem_mb_per_cpu
    rw [hc]
    simp only [if_neg (by omega : ¬ c < 1)]
  · intro t c cs hc h1
    unfold mem_mb_per_cpu
    rw [hc]
    simp only [if_pos h1, Int.tdiv_one]
  · intro r hmem l hl
    simp only [ensure_profile_lines, hmem, mem_mb_per_cpu_none] at hl
    simp only [List.append_nil, List.mem_cons, List.not_mem_nil, or_false] at hl
    rcases hl with rfl | rfl | rfl | rfl | rfl | rfl
    · decide
    · decide
    · decide
    · rfl
    · rfl
    · rfl
  · intro r v hv
    simp only [ensure_profile_lines, hv]
    simp

theorem minBy_mem {κ : Type} [LinearOrder κ] (key : String → κ) (x : String)
    (xs : List String) : minBy key x xs = x ∨ minBy key x xs ∈ xs := by
  induction xs generalizing x with
  | nil => exact Or.inl rfl
  | cons y ys ih =>
    simp only [minBy, List.foldl_cons] at *
    rcases ih (if key y < key x then y else x) with h | h
    · rw [h]
      by_cases hk : key y < key x
      · rw [if_pos hk]
        exact Or.inr (List.mem_cons_self y ys)
      · rw [if_neg hk]
        exact Or.inl rfl
    · exact Or.inr (List.mem_cons_of_mem y h)

theorem minBy_le {κ : Type} [LinearOrder κ] (key : String → κ) (x : String)
    (xs : List String) : ∀ q, (q = x ∨ q ∈ xs) → key (minBy key x xs) ≤ key q := by
  induction xs generalizing x with
  | nil =>
    rintro q (rfl | h)
    · exact le_refl _
    · exact absurd h (List.not_mem_nil q)
  | cons y ys ih =>
    intro q hq
    have hstep : minBy key x (y :: ys) = minBy key (if key y < key x then y else x) ys := by
      simp only [minBy, List.foldl_cons]
    rw [hstep]
    have hzx : key (if key y < key x then y else x) ≤ key x := by
      split
      · exact le_of_lt (by assumption)
      · exact le_refl _
    have hzy : key (if key y < key x then y else x) ≤ key y := by
      split
      · exact le_refl _
      · exact le_of_not_lt (by assumption)
    have hmin : key (minBy key (if key y < key x then y else x) ys) ≤
        key (if key y < key x then y else x) :=
      ih (if key y < key x then y else x) (if key y < key x then y else x) (Or.inl rfl)
    rcases hq with rfl | hmem
    · exact le_trans hmin hzx
    · rcases List.mem_cons.mp hmem with rfl | hys
      · exact le_trans hmin hzy
      · exact ih (if key y < key x then y else x) q (Or.inr hys)

theorem pickLowest_mem {queued : List String} {r : String}
    (h : pickLowest queued = some r) : r ∈ queued := by
  unfold pickLowest at h
  split at h
  · cases h
  · rename_i x xs
    split at h
    · injection h with h
      rcases minBy_mem (fun q => (pyInt? q.toList).getD 0) x xs with h2 | h2
      · rw [← h, h2]
        exact List.mem_cons_self x xs
      · rw [← h]
        exact List.mem_cons_of_mem x h2
    · injection h with h
      rcases minBy_mem (fun q : String => q) x xs with h2 | h2
      · rw [← h, h2]
        exact List.mem_cons_self x xs
      · rw [← h]
        exact List.mem_cons_of_mem x h2

theorem mem_queuedOf {runs : List (String × Run)} {q : String} :
    q ∈ queuedOf runs ↔ ∃ r : Run, (q, r) ∈ runs ∧ r.state.getD "" = "QUEUED" := by
  unfold queuedOf
  rw [List.mem_map]
  constructor
  · rintro ⟨p, hp, rfl⟩
    rw [List.mem_filter] at hp
    exact ⟨p.2, by simpa using hp.1, by simpa using hp.2⟩
  · rintro ⟨r, hm, hs⟩
    refine ⟨(q, r), ?_, rfl⟩
    rw [List.mem_filter]
    exact ⟨hm, by simpa using hs⟩

theorem pickCore_mem {runs : List (String × Run)} {active : Option Int} {r : String}
    (h : pickCore (some runs) active = some r) : r ∈ queuedOf runs := by
  simp only [pickCore] at h
  split at h
  · cases h
  · split at h
    · cases h
    · split at h
      · -- active_run_id is some value: sticky test first
        split at h
        · injection h with h
          rw [← h]
          assumption
        · exact pickLowest_mem h
      · exact pickLowest_mem h

theorem pickLowest_cons (x : String) (xs : List String) :
    pickLowest (x :: xs) =
      if ((x :: xs).all fun q => (pyInt? q.toList).isSome) = true then
        some (minBy (fun q => (pyInt? q.toList).getD 0) x xs)
      else some (minBy (fun q : String => q) x xs) := rfl

theorem queuedIds_none {s : Status} (hr : s.runs = none) : queuedIds s = [] := by
  unfold queuedIds
  rw [hr]

theorem queuedIds_some {s : Status} {rs : List (String × Run)} (hr : s.runs = some rs) :
    queuedIds s = queuedOf rs := by
  unfold queuedIds
  rw [hr]

/-- C4: the run selection policy is deterministic (a pure function of the
run map and `active_run_id`): it returns none when no run is QUEUED; a set
`active_run_id` that is itself QUEUED is returned sticky; otherwise the
returned id is QUEUED and minimal — numerically when every queued id parses
as an integer, lexically otherwise. Given runs 1 and 2 both QUEUED,
`active_run_id = 2` selects `"2"` and no active id selects `"1"`. -/
theorem C4_pick_queued_run :
    (∀ s : Status, queuedIds s = [] → pick_queued_run s = none) ∧
    (∀ (s : Status) (a : Int), s.active_run_id = some a → intToStr a ∈ queuedIds s →
      pick_queued_run s = some (intToStr a)) ∧
    (∀ (s : Status) (r : String), pick_queued_run s = some r → r ∈ queuedIds s) ∧
    (∀ (s : Status) (r : String), pick_queued_run s = some r →
      (∀ a : Int, s.active_run_id = some a → intToStr a ∉ queuedIds s) →
      (∀ q ∈ queuedIds s, (pyInt? q.toList).isSome = true) →
      ∀ q ∈ queuedIds s, (pyInt? r.toList).getD 0 ≤ (pyInt? q.toList).getD 0) ∧
    (∀ (s : Status) (r : String), pick_queued_run s = some r →
      (∀ a : Int, s.active_run_id = some a → intToStr a ∉ queuedIds s) →
      ¬ (∀ q ∈ queuedIds s, (pyInt? q.toList).isSome = true) →
      ∀ q ∈ queuedIds s, r ≤ q) ∧
    (∀ s t : Status, s.runs = t.runs → s.active_run_id = t.active_run_id →
      pick_queued_run s = pick_queued_run t) ∧
    pick_queued_run ⟨some "/w", some 2, some [("1", queuedRun), ("2", queuedRun)]⟩ =
      some "2" ∧
    pick_queued_run ⟨some "/w", none, some [("1", queuedRun), ("2", queuedRun)]⟩ =
      some "1" := by
  refine ⟨?_, ?_, ?_, ?_, ?_, ?_, by decide, by decide⟩
  · intro s hq
    unfold pick_queued_run
    cases hr : s.runs with
    | none => simp [pickCore]
    | some rs =>
      rw [queuedIds_some hr] at hq
      simp [pickCore, hq]
  · intro s a ha hmem
    unfold pick_queued_run
    rw [ha]
    cases hr : s.runs with
    | none =>
      rw [queuedIds_none hr] at hmem
      cases hmem
    | some rs =>
      rw [queuedIds_some hr] at hmem
      have hrs : rs.isEmpty = false := by
        rcases mem_queuedOf.mp hmem with ⟨r0, hm, _⟩
        cases rs
        · cases hm
        · rfl
      have hqne : (queuedOf rs).isEmpty = false := by
        cases hqc : queuedOf rs with
        | nil =>
          rw [hqc] at hmem
          cases hmem
        | cons x xs => rfl
      simp [pickCore, hrs, hqne, hmem]
  · intro s r h
    unfold pick_queued_run at h
    cases hr : s.runs with
    | none =>
      rw [hr] at h
      cases h
    | some rs =>
      rw [hr] at h
      rw [queuedIds_some hr]
      exact pickCore_mem h
  · intro s r hpick hnost hnum q hq
    unfold pick_queued_run at hpick
    cases hr : s.runs with
    | none =>
      rw [queuedIds_none hr] at hq
      cases hq
    | some rs =>
      rw [hr] at hpick
      rw [queuedIds_some hr] at hnost hnum hq
      have hlow : pickLowest (queuedOf rs) = some r := by
        simp only [pickCore] at hpick
        split at hpick
        · cases hpick
        · split at hpick
          · cases hpick
          · split at hpick
            · rename_i a heq
              split at hpick
              · exact absurd (by assumption) (hnost a heq)
              · exact hpick
            · exact hpick
      cases hqq : queuedOf rs with
      | nil =>
        rw [hqq] at hq
        cases hq
      | cons x xs =>
        rw [hqq] at hlow hnum hq
        have hcond : ((x :: xs).all fun q => (pyInt? q.toList).isSome) = true :=
          List.all_eq_true.mpr fun y hy => hnum y hy
        rw [pickLowest_cons, if_pos hcond] at hlow
        injection hlow with hlow
        rw [← hlow]
        exact minBy_le (fun q => (pyInt? q.toList).getD 0) x xs q (List.mem_cons.mp hq)
  · intro s r hpick hnost hnotnum q hq
    unfold pick_queued_run at hpick
    cases hr : s.runs with
    | none =>
      rw [queuedIds_none hr] at hq
      cases hq
    | some rs =>
      rw [hr] at hpick
      rw [queuedIds_some hr] at hnost hnotnum hq
      have hlow : pickLowest (queuedOf rs) = some r := by
        simp only [pickCore] at hpick
        split at hpick
        · cases hpick
        · split at hpick
          · cases hpick
          · split at hpick
            · rename_i a heq
              split at hpick
              · exact absurd (by assumption) (hnost a heq)
              · exact hpick
            · exact hpick
      cases hqq : queuedOf rs with
      | nil =>
        rw [hqq] at hq
        cases hq
      | cons x xs =>
        rw [hqq] at hlow hnotnum hq
        have hcond : ((x :: xs).all fun q => (pyInt? q.toList).isSome) = false := by
          cases hv : (x :: xs).all fun q => (pyInt? q.toList).isSome
          · rfl
          · exact absurd (fun y hy => List.all_eq_true.mp hv y hy) hnotnum
        rw [pickLowest_cons, if_neg (by rw [hcond]; exact Bool.false_ne_true)] at hlow
        injection hlow with hlow
        rw [← hlow]
        exact minBy_le (fun q : String => q) x xs q (List.mem_cons.mp hq)
  · intro s t h1 h2
    unfold pick_queued_run
    rw [h1, h2]

theorem findRun_map_update (rs : List (String × Run)) (rid rid2 : String) (f : Run → Run) :
    findRun (rs.map fun p => if p.1 = rid then (p.1, f p.2) else p) rid2 =
      (findRun rs rid2).map (fun r => if rid = rid2 then f r else r) := by
  induction rs with
  | nil => rfl
  | cons p ps ih =>
    have hfst : (if p.1 = rid then (p.1, f p.2) else p).1 = p.1 := by split <;> rfl
    have hsnd : (if p.1 = rid then (p.1, f p.2) else p).2 =
        if p.1 = rid then f p.2 else p.2 := by split <;> rfl
    by_cases h2 : p.1 = rid2
    · simp only [List.map_cons, findRun, hfst, hsnd, if_pos h2]
      by_cases h1 : p.1 = rid
      · have hrr : rid = rid2 := h1 ▸ h2
        simp [h1, hrr]
      · have hrr : ¬ rid = rid2 := fun hc => h1 (h2.trans hc.symm)
        simp [h1, hrr]
    · simp only [List.map_cons, findRun, hfst, if_neg h2]
      exact ih

theorem findRun_append_single (rs : List (String × Run)) (p : String × Run) (rid : String) :
    findRun (rs ++ [p]) rid =
      match findRun rs rid with
      | some r => some r
      | none => if p.1 = rid then some p.2 else none := by
  induction rs with
  | nil => rfl
  | cons q qs ih =>
    by_cases h : q.1 = rid
    · simp only [List.cons_append, findRun, if_pos h]
    · simp only [List.cons_append, findRun, if_neg h]
      exact ih

theorem findRun_of_any {rs : List (String × Run)} {rid : String}
    (h : rs.any (fun p => p.1 = rid) = true) : ∃ r, findRun rs rid = some r := by
  induction rs with
  | nil => cases h
  | cons p ps ih =>
    by_cases hp : p.1 = rid
    · exact ⟨p.2, by simp [findRun, hp]⟩
    · rcases ih (by
        rcases List.any_eq_true.mp h with ⟨q, hq, hqq⟩
        rcases List.mem_cons.mp hq with rfl | hq2
        · exact absurd (of_decide_eq_true hqq) hp
        · exact List.any_eq_true.mpr ⟨q, hq2, hqq⟩) with ⟨r, hr⟩
      exact ⟨r, by simp [findRun, hp, hr]⟩

theorem findRun_none_of_not_any {rs : List (String × Run)} {rid : String}
    (h : rs.any (fun p => p.1 = rid) = false) : findRun rs rid = none := by
  induction rs with
  | nil => rfl
  | cons p ps ih =>
    simp only [List.any_cons, Bool.or_eq_false_iff] at h
    have hp : ¬ p.1 = rid := by
      intro hc
      rw [hc] at h
      simp at h
    simp only [findRun, if_neg hp]
    exact ih h.2

theorem findRun_setRun_self (rs : List (String × Run)) (rid : String) (f : Run → Run) :
    ∃ r0 : Run, findRun (setRun rs rid f) rid = some (f r0) := by
  unfold setRun
  by_cases h : rs.any (fun p => p.1 = rid) = true
  · rw [if_pos h]
    rcases findRun_of_any h with ⟨r0, hr0⟩
    refine ⟨r0, ?_⟩
    rw [findRun_map_update, hr0]
    simp
  · rw [if_neg h]
    refine ⟨emptyRun, ?_⟩
    rw [findRun_append_single, findRun_none_of_not_any (by
      cases hv : rs.any (fun p => p.1 = rid)
      · rfl
      · exact absurd hv h)]
    simp

theorem mem_setRun_key {rs : List (String × Run)} {rid : String} {f : Run → Run} {r : Run}
    (h : (rid, r) ∈ setRun rs rid f) : ∃ r0, r = f r0 := by
  unfold setRun at h
  split at h
  · rcases List.mem_map.mp h with ⟨p, hp, hpe⟩
    by_cases hk : p.1 = rid
    · rw [if_pos hk] at hpe
      exact ⟨p.2, (congrArg Prod.snd hpe).symm⟩
    · rw [if_neg hk] at hpe
      exact absurd (congrArg Prod.fst hpe) (by simpa using hk)
  · rcases List.mem_append.mp h with hin | hin
    · rename_i hany
      exact absurd (List.any_eq_true.mpr ⟨(rid, r), hin, by simp⟩) hany
    · have he := List.mem_singleton.mp hin
      exact ⟨emptyRun, congrArg Prod.snd he⟩

theorem runStateOf_monitorUpdate (disk : Status) (rid : String) (ids : List Nat)
    (ts : String) (rid2 : String) :
    runStateOf (monitorUpdate disk rid ids ts) rid2 = runStateOf disk rid2 := by
  have hruns : (monitorUpdate disk rid ids ts).runs
      = some (setRun (disk.runs.getD []) rid (monitorRunMutation ids ts)) := rfl
  unfold runStateOf
  rw [hruns, Option.getD_some]
  unfold setRun
  split
  · rw [findRun_map_update]
    cases hfr : findRun (disk.runs.getD []) rid2 with
    | none => rfl
    | some r =>
      by_cases hrr : rid = rid2
      · simp [hrr, monitorRunMutation]
      · simp [hrr]
  · rw [findRun_append_single]
    cases hfr : findRun (disk.runs.getD []) rid2 with
    | none =>
      by_cases hrr : rid = rid2
      · simp [hrr, monitorRunMutation, emptyRun]
      · simp [hrr]
    | some r => rfl

theorem runFinishedOf_monitorUpdate (disk : Status) (rid : String) (ids : List Nat)
    (ts : String) (rid2 : String) :
    runFinishedOf (monitorUpdate disk rid ids ts) rid2 = runFinishedOf disk rid2 := by
  have hruns : (monitorUpdate disk rid ids ts).runs
      = some (setRun (disk.runs.getD []) rid (monitorRunMutation ids ts)) := rfl
  unfold runFinishedOf
  rw [hruns, Option.getD_some]
  unfold setRun
  split
  · rw [findRun_map_update]
    cases hfr : findRun (disk.runs.getD []) rid2 with
    | none => rfl
    | some r =>
      by_cases hrr : rid = rid2
      · simp [hrr, monitorRunMutation]
      · simp [hrr]
  · rw [findRun_append_single]
    cases hfr : findRun (disk.runs.getD []) rid2 with
    | none =>
      by_cases hrr : rid = rid2
      · simp [hrr, monitorRunMutation, emptyRun]
      · simp [hrr]
    | some r => rfl

/-- C7: after the engine exits, the daemon finalizes the freshly reloaded
document: the run's terminal state is determined solely by the exit code
(FINISHED iff 0, otherwise FAILED), the `finished` timestamp is stamped, the
exit code recorded, and one final log scrape is written into the slurm
record; the `started` field is untouched. Monitor-loop writes never change a
run's `state` or `finished` fields, so the terminal transition happens in
exactly this one write per launch. -/
theorem finalizeRun_none {disk : Status} (hr : disk.runs = none) (rid : String)
    (ec : Int) (log : Option (List String)) (ts : String) :
    finalizeRun disk rid ec log ts = none := by
  unfold finalizeRun
  rw [hr]

theorem finalizeRun_some {disk : Status} {rs : List (String × Run)} (hr : disk.runs = some rs)
    (rid : String) (ec : Int) (log : Option (List String)) (ts : String) :
    finalizeRun disk rid ec log ts =
      if rs.any (fun p => p.1 = rid) then
        some { disk with runs := some (rs.map fun p =>
          if p.1 = rid then (p.1, finalizeRunObj ec log ts p.2) else p) }
      else none := by
  unfold finalizeRun
  rw [hr]

theorem C7_finalize_state :
    (∀ (disk : Status) (rid : String) (ec : Int) (log : Option (List String)) (ts : String)
        (doc : Status) (r0 : Run),
      finalizeRun disk rid ec log ts = some doc →
      findRun (disk.runs.getD []) rid = some r0 →
      findRun (doc.runs.getD []) rid = some (finalizeRunObj ec log ts r0)) ∧
    (∀ (ec : Int) (log : Option (List String)) (ts : String) (r0 : Run),
      ((finalizeRunObj ec log ts r0).state = some "FINISHED" ↔ ec = 0) ∧
      (ec ≠ 0 → (finalizeRunObj ec log ts r0).state = some "FAILED") ∧
      (finalizeRunObj ec log ts r0).finished = some ts ∧
      (finalizeRunObj ec log ts r0).snakemake_exit_code = some ec ∧
      (finalizeRunObj ec log ts r0).slurm = some ⟨executorName,
        extract_slurm_job_ids_from_log log,
        (extract_slurm_job_ids_from_log log).length, some ts⟩ ∧
      (finalizeRunObj ec log ts r0).started = r0.started) ∧
    (∀ (disk : Status) (rid : String) (ids : List Nat) (ts rid2 : String),
      runStateOf (monitorUpdate disk rid ids ts) rid2 = runStateOf disk rid2 ∧
      runFinishedOf (monitorUpdate disk rid ids ts) rid2 = runFinishedOf disk rid2) := by
  refine ⟨?_, ?_, ?_⟩
  · intro disk rid ec log ts doc r0 hfin hfound
    cases hr : disk.runs with
    | none =>
      rw [finalizeRun_none hr] at hfin
      cases hfin
    | some rs =>
      rw [finalizeRun_some hr] at hfin
      rw [hr, Option.getD_some] at hfound
      split at hfin
      · injection hfin with hfin
        rw [← hfin]
        have hd : ({ disk with runs := some (rs.map fun p =>
            if p.1 = rid then (p.1, finalizeRunObj ec log ts p.2) else p) } : Status).runs.getD []
            = rs.map fun p => if p.1 = rid then (p.1, finalizeRunObj ec log ts p.2) else p := rfl
        rw [hd, findRun_map_update, hfound]
        simp
      · cases hfin
  · intro ec log ts r0
    refine ⟨?_, ?_, rfl, rfl, rfl, rfl⟩
    · by_cases h0 : ec = 0
      · simp [finalizeRunObj, h0]
      · simp [finalizeRunObj, h0, (by decide : ¬ ("FAILED" : String) = "FINISHED")]
    · intro h0
      simp [finalizeRunObj, h0]
  · intro disk rid ids ts rid2
    exact ⟨runStateOf_monitorUpdate disk rid ids ts rid2,
           runFinishedOf_monitorUpdate disk rid ids ts rid2⟩

/-- C6: whenever the launch phase of `handle_job` reaches the engine spawn,
the very step list it performs is persist, then profile write, then spawn —
the persist strictly precedes the spawn — and the persisted document has the
selected run RUNNING with its `started` stamp and a fresh empty slurm
record, with `active_run_id` set; re-running the selection policy on the
persisted document can never select the same run again. -/
theorem C6_persist_before_spawn :
    ∀ (fs : JobFS) (ts : String) (steps : List DaemonStep),
      handle_job fs ts = .ok (steps, true) →
      ∃ (status : Status) (rid : String) (ridInt : Int),
        fs.status_read = .parsed status ∧
        pick_queued_run status = some rid ∧
        pyInt? rid.toList = some ridInt ∧
        steps = [.persist (launchUpdate status rid ridInt ts),
                 .writeProfile (ensure_profile_lines
                   (((findRun (status.runs.getD []) rid).getD emptyRun).requested_resources.getD
                     emptyResources)),
                 .spawnEngine rid] ∧
        runStateOf (launchUpdate status rid ridInt ts) rid = some "RUNNING" ∧
        (∃ r1, findRun ((launchUpdate status rid ridInt ts).runs.getD []) rid = some r1 ∧
          r1.started = some ts ∧ r1.slurm = some ⟨executorName, [], 0, none⟩) ∧
        (launchUpdate status rid ridInt ts).active_run_id = some ridInt ∧
        pick_queued_run (launchUpdate status rid ridInt ts) ≠ some rid := by
  intro fs ts steps h
  simp only [handle_job] at h
  split at h
  · simp at h
  · cases h
  · rename_i status hstatus
    split at h
    · simp at h
    · rename_i jd hjd
      split at h
      · simp at h
      · split at h
        · simp at h
        · split at h
          · simp at h
          · rename_i rid hpick
            split at h
            · simp at h
            · rename_i sf hsf
              split at h
              · simp at h
              · split at h
                · simp at h
                · split at h
                  · cases h
                  · rename_i ridInt hrid
                    injection h with h
                    injection h with h1 h2
                    obtain ⟨r0, hr0⟩ := findRun_setRun_self (status.runs.getD []) rid
                      (launchRunMutation rid ts)
                    refine ⟨status, rid, ridInt, hstatus, hpick, hrid, h1.symm, ?_, ?_, rfl, ?_⟩
                    · unfold runStateOf
                      have hd : (launchUpdate status rid ridInt ts).runs.getD [] =
                          setRun (status.runs.getD []) rid (launchRunMutation rid ts) := rfl
                      rw [hd, hr0]
                      rfl
                    · refine ⟨launchRunMutation rid ts r0, ?_, rfl, rfl⟩
                      have hd : (launchUpdate status rid ridInt ts).runs.getD [] =
                          setRun (status.runs.getD []) rid (launchRunMutation rid ts) := rfl
                      rw [hd, hr0]
                    · intro hcontra
                      have hpc : pick_queued_run (launchUpdate status rid ridInt ts) =
                          pickCore (some (setRun (status.runs.getD []) rid
                            (launchRunMutation rid ts))) (some ridInt) := rfl
                      rw [hpc] at hcontra
                      have hmm := pickCore_mem hcontra
                      rcases mem_queuedOf.mp hmm with ⟨r1, hin, hst⟩
                      rcases mem_setRun_key hin with ⟨r2, rfl⟩
                      exact absurd hst (by simp [launchRunMutation])

theorem handle_job_unparsable {fs : JobFS} (h : fs.status_read = .unparsable) (ts : String) :
    handle_job fs ts = .error () := by
  unfold handle_job
  rw [h]

/-- C2, counterexample: one unparsable status document aborts the whole
polling cycle with an uncaught exception — `main_loop` has no `try/except` —
even though the other discovered job is healthy and would have launched; the
daemon process terminates instead of skipping the bad job. -/
theorem C2_counterexample :
    processJobs [unparsableJob, healthyJob] "2024-01-01T00:00:00" = .error () ∧
    (∃ steps, handle_job healthyJob "2024-01-01T00:00:00" = .ok (steps, true)) := by
  constructor
  · rfl
  · exact ⟨_, rfl⟩

/-- C2 (amended): a status document that is present but missing required
content (no `job_dir`, or no parsable queued run to launch) makes the daemon
log and skip that job, and a cycle whose jobs all yield results completes
for every job; the daemon never substitutes an empty document. However, a
status document that cannot be parsed raises an uncaught exception that
propagates out of `handle_job` and terminates the polling loop — and with it
the daemon process — rather than skipping just that job. -/
theorem C2_daemon_error_handling :
    (∀ (b : Bool) (l : List String) (ts : String),
      handle_job ⟨.missing, b, l⟩ ts = .ok ([], false)) ∧
    (∀ (fs : JobFS) (ts : String), fs.status_read = .unparsable →
      handle_job fs ts = .error ()) ∧
    (∀ (st : Status) (b : Bool) (l : List String) (ts : String), st.job_dir = none →
      handle_job ⟨.parsed st, b, l⟩ ts = .ok ([], false)) ∧
    (∀ (jobs : List JobFS) (ts : String), (∃ fs ∈ jobs, fs.status_read = .unparsable) →
      processJobs jobs ts = .error ()) ∧
    (∀ (jobs : List JobFS) (ts : String),
      (∀ fs ∈ jobs, ∃ r, handle_job fs ts = .ok r) →
      ∃ res, processJobs jobs ts = .ok res) := by
  refine ⟨?_, ?_, ?_, ?_, ?_⟩
  · intro b l ts
    rfl
  · intro fs ts h
    exact handle_job_unparsable h ts
  · intro st b l ts h
    unfold handle_job
    simp only
    rw [h]
  · intro jobs ts
    induction jobs with
    | nil =>
      rintro ⟨fs, hm, _⟩
      cases hm
    | cons fs rest ih =>
      rintro ⟨fs0, hm, hu⟩
      rcases List.mem_cons.mp hm with rfl | hm2
      · unfold processJobs
        rw [handle_job_unparsable hu ts]
      · unfold processJobs
        cases hh : handle_job fs ts with
        | error e =>
          cases e
          rfl
        | ok r =>
          rw [ih ⟨fs0, hm2, hu⟩]
  · intro jobs ts
    induction jobs with
    | nil =>
      intro _
      exact ⟨[], rfl⟩
    | cons fs rest ih =>
      intro hall
      rcases hall fs (List.mem_cons_self fs rest) with ⟨r, hr⟩
      rcases ih (fun g hg => hall g (List.mem_cons_of_mem fs hg)) with ⟨res, hres⟩
      refine ⟨r :: res, ?_⟩
      unfold processJobs
      rw [hr, hres]

theorem sortedUniq_sorted (l : List Nat) : List.Sorted (· ≤ ·) (sortedUniq l) :=
  List.sorted_insertionSort _ _

theorem sortedUniq_nodup (l : List Nat) : (sortedUniq l).Nodup :=
  ((List.perm_insertionSort _ _).nodup_iff).mpr (List.nodup_dedup l)

theorem mem_sortedUniq {l : List Nat} {n : Nat} : n ∈ sortedUniq l ↔ n ∈ l := by
  unfold sortedUniq
  rw [(List.perm_insertionSort _ _).mem_iff, List.mem_dedup]

/-- C8, counterexample. The claim promises the set of all integers matched
by either pattern, but the code takes at most one match per log line
(`re.search`, and `continue` after a plugin match): a line announcing two
cluster ids contributes only the first. -/
theorem C8_counterexample :
    extract_slurm_job_ids_from_log
      (some ["Job 1 has been submitted with SLURM jobid 111 and SLURM jobid 222"]) =
      [111] ∧
    specAllMatchedIds
      (some ["Job 1 has been submitted with SLURM jobid 111 and SLURM jobid 222"]) =
      [111, 222] ∧
    ([111] : List Nat) ≠ [111, 222] := by
  refine ⟨by decide, by decide, by decide⟩

/-- C8 (amended): the scraper returns the sorted duplicate-free list of the
per-line matches — for each line the first plugin-style match, or if none
the first classic match, at most one id per line; a missing or unreadable
log yields the empty list rather than an error; the function is pure, so an
unchanged log always yields the same list; and the monitor loop does not
rewrite the status document when the scraped set equals the last-observed
snapshot. -/
theorem C8_log_scraper :
    extract_slurm_job_ids_from_log none = [] ∧
    (∀ log : Option (List String),
      List.Sorted (· ≤ ·) (extract_slurm_job_ids_from_log log) ∧
      (extract_slurm_job_ids_from_log log).Nodup) ∧
    (∀ (lines : List String) (n : Nat),
      n ∈ extract_slurm_job_ids_from_log (some lines) ↔
        ∃ line ∈ lines, lineId? line.toList = some n) ∧
    (∀ (rid : String) (disk : Status) (log : Option (List String)) (ts : String),
      monitorIter rid (extract_slurm_job_ids_from_log log).toFinset disk log ts =
        (none, (extract_slurm_job_ids_from_log log).toFinset)) ∧
    (∀ (rid : String) (last : Finset Nat) (disk : Status) (log : Option (List String))
        (ts : String),
      (extract_slurm_job_ids_from_log log).toFinset = last →
      (monitorIter rid last disk log ts).1 = none) ∧
    extract_slurm_job_ids_from_log
      (some ["Job 0 has been submitted with SLURM jobid 9 (log: x).",
             "Submitted batch job 2"]) = [2, 9] := by
  refine ⟨rfl, ?_, ?_, ?_, ?_, by decide⟩
  · intro log
    cases log with
    | none => exact ⟨List.sorted_nil, List.nodup_nil⟩
    | some lines => exact ⟨sortedUniq_sorted _, sortedUniq_nodup _⟩
  · intro lines n
    unfold extract_slurm_job_ids_from_log
    rw [mem_sortedUniq, List.mem_filterMap]
  · intro rid disk log ts
    unfold monitorIter
    rw [if_pos rfl]
  · intro rid last disk log ts h
    unfold monitorIter
    rw [if_pos h]

theorem dropWhile_append_of_all {p : Char → Bool} {xs ys : List Char}
    (h : ∀ x ∈ xs, p x = true) : (xs ++ ys).dropWhile p = ys.dropWhile p := by
  induction xs with
  | nil => rfl
  | cons c cs ih =>
    rw [List.cons_append, List.dropWhile_cons, if_pos (h c (List.mem_cons_self c cs))]
    exact ih fun x hx => h x (List.mem_cons_of_mem c hx)

/-- Single-writer small-step invariant: from any of the four reachable
states, any step (of the one writer, or the no-op of an invalid index)
stays in the four reachable states. -/
theorem saveStep_single {c0 : FileContent} {d : Status} {fs : SaveFS} (i : Nat)
    (h : fs ∈ singleWriterStates c0 d) :
    saveStep [d] fs i ∈ singleWriterStates c0 d := by
  simp only [singleWriterStates, List.mem_cons, List.mem_singleton,
    List.not_mem_nil, or_false] at h ⊢
  rcases h with rfl | rfl | rfl | rfl
  · cases i with
    | zero => exact Or.inr (Or.inl rfl)
    | succ n => exact Or.inl rfl
  · cases i with
    | zero => exact Or.inr (Or.inr (Or.inl rfl))
    | succ n => exact Or.inr (Or.inl rfl)
  · cases i with
    | zero => exact Or.inr (Or.inr (Or.inr rfl))
    | succ n => exact Or.inr (Or.inr (Or.inl rfl))
  · cases i with
    | zero => exact Or.inr (Or.inr (Or.inr rfl))
    | succ n => exact Or.inr (Or.inr (Or.inr rfl))

/-- A whole single-writer schedule stays within the four reachable states. -/
theorem runSched_single (c0 : FileContent) (d : Status) (sched : List Nat) {fs : SaveFS}
    (h : fs ∈ singleWriterStates c0 d) :
    runSched [d] fs sched ∈ singleWriterStates c0 d := by
  induction sched generalizing fs with
  | nil => exact h
  | cons i rest ih =>
    have hrun : runSched [d] fs (i :: rest) = runSched [d] (saveStep [d] fs i) rest := by
      simp [runSched, List.foldl_cons]
    rw [hrun]
    exact ih (saveStep_single i h)

/-- C10, counterexample. All writers of one job share the single temp path
`path + ".tmp"`, and `open(.., "w")` truncates it. First interleaving:
A opens and dumps, B's truncating open then empties the shared temp inode,
and A's rename installs that torn inode at the target — a concurrent reader
observes a partially written document, refuting "never observes a partially
written document". Second interleaving: A opens and dumps, B opens
(truncating) and dumps into the same inode, A's rename installs it — now
holding B's document — and B's own rename raises `FileNotFoundError`
(counter 4). The only save that completed is A's (counter 3), yet B's
content survives, refuting "the last completed write wins". -/
theorem C10_counterexample :
    readTarget (runSched [docA, docB] (initFS (.json docA) 2) [0, 0, 1, 0]) =
      .truncated docB ∧
    readTarget (runSched [docA, docB] (initFS (.json docA) 2) [0, 0, 1, 1, 0, 1]) =
      .json docB ∧
    ((runSched [docA, docB] (initFS (.json docA) 2) [0, 0, 1, 1, 0, 1]).writers.map
      fun w => w.pc) = [3, 4] ∧
    docA ≠ docB := by
  refine ⟨by decide, by decide, by decide, by decide⟩

/-- C10 (amended): every save writes the serialized document to the temp
location in the same directory as the target and installs it there with one
atomic rename. While a single writer saves — the daemon's own sequential
loop, the only caller in the source — a reader running concurrently never
observes a partially written document at the target: at every point of
every schedule it sees either the previous content or the writer's complete
document (in particular, never a document lacking the `runs` key when both
carry one). The claim's multi-writer guarantees are the refuted part: with
two writers the shared, truncating temp path makes a torn target observable
and the surviving content need not be the last completed writer's. -/
theorem C10_atomic_save :
    (∀ path : List Char, dirnameCL (tmp_path path) = dirnameCL path) ∧
    (∀ (d : Status) (c0 : FileContent) (sched : List Nat),
      readTarget (runSched [d] (initFS c0 1) sched) = c0 ∨
      readTarget (runSched [d] (initFS c0 1) sched) = .json d) ∧
    (∀ (d : Status) (c0 : FileContent) (sched : List Nat) (dt : Status),
      (∀ d0 : Status, c0 ≠ .truncated d0) →
      readTarget (runSched [d] (initFS c0 1) sched) ≠ .truncated dt) ∧
    (∀ (d : Status) (c0 : FileContent) (sched : List Nat) (d2 : Status),
      (∀ d0 : Status, c0 = .json d0 → d0.runs.isSome = true) →
      d.runs.isSome = true →
      readTarget (runSched [d] (initFS c0 1) sched) = .json d2 →
      d2.runs.isSome = true) := by
  have hread : ∀ (d : Status) (c0 : FileContent) (sched : List Nat),
      readTarget (runSched [d] (initFS c0 1) sched) = c0 ∨
      readTarget (runSched [d] (initFS c0 1) sched) = .json d := by
    intro d c0 sched
    have hmem : runSched [d] (initFS c0 1) sched ∈ singleWriterStates c0 d :=
      runSched_single c0 d sched (List.mem_cons_self _ _)
    simp only [singleWriterStates, List.mem_cons, List.mem_singleton,
      List.not_mem_nil, or_false] at hmem
    rcases hmem with he | he | he | he <;> rw [he]
    · exact Or.inl rfl
    · exact Or.inl rfl
    · exact Or.inl rfl
    · exact Or.inr rfl
  refine ⟨?_, hread, ?_, ?_⟩
  · intro path
    unfold dirnameCL tmp_path
    rw [List.reverse_append, dropWhile_append_of_all (by decide)]
  · intro d c0 sched dt hc0 hcontra
    rcases hread d c0 sched with h1 | h1
    · rw [hcontra] at h1
      exact hc0 dt h1.symm
    · rw [hcontra] at h1
      cases h1
  · intro d c0 sched d2 hc0 hd hj
    rcases hread d c0 sched with h1 | h1
    · rw [hj] at h1
      exact hc0 d2 h1.symm
    · rw [hj] at h1
      injection h1 with he
      rw [he]
      exact hd

theorem pyInt?_digits {ds : List Char} (hne : ds ≠ [])
    (hd : ds.all pyIsDigit = true) : pyInt? ds = some (digitsToNat ds) := by
  have hall : ∀ c ∈ ds, pyIsDigit c = true := fun c hc => List.all_eq_true.mp hd c hc
  have hstrip : pyStrip ds = ds :=
    pyStrip_of_all fun c hc => isPySpace_of_digit (hall c hc)
  obtain ⟨c, cs, rfl⟩ := List.exists_cons_of_ne_nil hne
  have hc := hall c (List.mem_cons_self c cs)
  have hsign := digit_ne_sign hc
  unfold pyInt?
  rw [hstrip]
  rw [if_neg (by simp [hsign.1]), if_neg (by simp [hsign.2]), if_pos (by simp [hd])]
  rfl

/-- C1, counterexample. The prober's terminal `if`s are not chained: for the
accounting text `CANCELLED` it sends TWO classifications — CANCELLED, then
ProbFAILED from the always-taken final check — not exactly one; and the
empty-remainder case reports the state string COMPLETED, not FINISHED. -/
theorem C1_counterexample :
    probeReports "State\nCANCELLED\n" = ["CANCELLED", "ProbFAILED"] ∧
    (["CANCELLED", "ProbFAILED"] : List String).length ≠ 1 ∧
    probeReports "State\nCOMPLETED\n" = ["COMPLETED"] ∧
    ("COMPLETED" : String) ≠ "FINISHED" := by
  refine ⟨by decide, by decide, by decide, by decide⟩

/-- C1 (amended): for a previously-recorded cluster job id, text containing
PENDING or RUNNING makes the prober report nothing. Any other text always
produces at least one report, whose LAST element is COMPLETED (not FINISHED)
exactly when the text is empty after stripping the COMPLETED markers and the
ambiguous ProbFAILED otherwise; in addition a CANCELLED report is sent
exactly when the text contains CANCELLED and a FAILED report exactly when it
contains FAILED, each BEFORE the final report — so a CANCELLED or FAILED
text yields two reports, the ambiguous one last. -/
theorem C1_slurm_prober :
    (∀ raw : String,
      (containsSub "PENDING".toList (probeClean raw) ||
        containsSub "RUNNING".toList (probeClean raw)) = true →
      probeReports raw = []) ∧
    (∀ raw : String,
      (containsSub "PENDING".toList (probeClean raw) ||
        containsSub "RUNNING".toList (probeClean raw)) = false →
      probeReports raw ≠ [] ∧
      (probeReports raw).getLast? = some
        (if (replaceAll "COMPLETED".toList (probeClean raw)).isEmpty then "COMPLETED"
         else "ProbFAILED") ∧
      ("CANCELLED" ∈ probeReports raw ↔
        containsSub "CANCELLED".toList (probeClean raw) = true) ∧
      ("FAILED" ∈ probeReports raw ↔
        containsSub "FAILED".toList (probeClean raw) = true)) ∧
    probeReports "State\nPENDING\n" = [] ∧
    probeReports "State\nCOMPLETED\nCOMPLETED\n" = ["COMPLETED"] ∧
    probeReports "State\nFAILED\n" = ["FAILED", "ProbFAILED"] ∧
    probeReports "State\nCANCELLED\n" = ["CANCELLED", "ProbFAILED"] ∧
    probeReports "State\nNODE_FAIL\n" = ["ProbFAILED"] := by
  refine ⟨?_, ?_, by decide, by decide, by decide, by decide, by decide⟩
  · intro raw hterm
    unfold probeReports
    rw [if_pos hterm]
  · intro raw hterm
    unfold probeReports
    rw [if_neg (by rw [hterm]; exact Bool.false_ne_true)]
    have hf1 : (if (replaceAll "COMPLETED".toList (probeClean raw)).isEmpty then "COMPLETED"
        else "ProbFAILED") ≠ "CANCELLED" := by split <;> decide
    have hf2 : (if (replaceAll "COMPLETED".toList (probeClean raw)).isEmpty then "COMPLETED"
        else "ProbFAILED") ≠ "FAILED" := by split <;> decide
    by_cases hA : containsSub "CANCELLED".toList (probeClean raw) = true
    · by_cases hB : containsSub "FAILED".toList (probeClean raw) = true
      · rw [if_pos hA, if_pos hB]
        refine ⟨by simp, rfl, ?_, ?_⟩
        · exact ⟨fun _ => hA, fun _ => by simp⟩
        · exact ⟨fun _ => hB, fun _ => by simp⟩
      · rw [if_pos hA, if_neg hB]
        refine ⟨by simp, rfl, ⟨fun _ => hA, fun _ => by simp⟩, ?_⟩
        constructor
        · intro h
          simp only [List.cons_append, List.nil_append, List.mem_cons,
            List.mem_singleton] at h
          rcases h with h | h | h
          · exact absurd h (by decide)
          · exact absurd h.symm hf2
          · exact absurd h (List.not_mem_nil _)
        · intro h
          exact absurd h hB
    · by_cases hB : containsSub "FAILED".toList (probeClean raw) = true
      · rw [if_neg hA, if_pos hB]
        refine ⟨by simp, rfl, ?_, ⟨fun _ => hB, fun _ => by simp⟩⟩
        constructor
        · intro h
          simp only [List.nil_append, List.cons_append, List.mem_cons,
            List.mem_singleton] at h
          rcases h with h | h | h
          · exact absurd h (by decide)
          · exact absurd h.symm hf1
          · exact absurd h (List.not_mem_nil _)
        · intro h
          exact absurd h hA
      · rw [if_neg hA, if_neg hB]
        refine ⟨by simp, rfl, ?_, ?_⟩
        · constructor
          · intro h
            simp only [List.nil_append, List.mem_singleton] at h
            exact absurd h.symm hf1
          · intro h
            exact absurd h hA
        · constructor
          · intro h
            simp only [List.nil_append, List.mem_singleton] at h
            exact absurd h.symm hf2
          · intro h
            exact absurd h hB

theorem rstripNL_split (out : List Char) :
    out = rstripNL out ++ (out.reverse.takeWhile (fun c => c = '\n')).reverse := by
  unfold rstripNL
  conv_lhs => rw [← List.reverse_reverse out,
    ← List.takeWhile_append_dropWhile (p := fun c => decide (c = '\n')) (l := out.reverse),
    List.reverse_append]

/-- C9: for a fresh job the agent runs the designated local script with its
declared arguments plus the job id appended, and classifies the trimmed
captured output: a bare non-negative integer, or the submission
acknowledgement text followed by an integer, is reported upstream as
BatchJobRunning with that id; any other output is reported as FINISHED.
A script printing `Submitted batch job 77531` yields a running report with
cluster id 77531. -/
theorem C9_agent_fresh_job :
    (∀ (home name : String) (args : List String) (fid : Int),
      execute_function_args home name args fid =
        (home ++ "/functions/" ++ name ++ ".sh") :: args ++ [intToStr fid]) ∧
    (∀ out : List Char, pyIsNumeric (rstripNL out) = true →
      agent_classify out = .batchJobRunning (digitsToNat (rstripNL out))) ∧
    (∀ (out : List Char) (sid : Int), submittedPrefix.isPrefixOf out = true →
      pyInt? ((rstripNL out).drop 20) = some sid →
      agent_classify out = .batchJobRunning sid) ∧
    (∀ out : List Char, pyIsNumeric (rstripNL out) = false →
      submittedPrefix.isPrefixOf out = false →
      agent_classify out = .finished) ∧
    (∀ (out : List Char) (n : Int), agent_classify out = .batchJobRunning n →
      agent_fresh_job_action out = .ok (.reportRunning n "BatchJobRunning")) ∧
    (∀ out : List Char, agent_classify out = .finished →
      agent_fresh_job_action out = .ok (.reportStatus "FINISHED")) ∧
    agent_classify "Submitted batch job 77531\n".toList = .batchJobRunning 77531 ∧
    agent_classify "12345".toList = .batchJobRunning 12345 ∧
    agent_classify "workflow complete\n".toList = .finished := by
  refine ⟨fun _ _ _ _ => rfl, ?_, ?_, ?_, ?_, ?_, by decide, by decide, by decide⟩
  · intro out hnum
    have hne : rstripNL out ≠ [] := by
      intro hc
      unfold pyIsNumeric at hnum
      rw [hc] at hnum
      cases hnum
    have hall : (rstripNL out).all pyIsDigit = true := by
      unfold pyIsNumeric at hnum
      exact (Bool.and_eq_true _ _ |>.mp hnum).2
    obtain ⟨d, ds, hds⟩ := List.exists_cons_of_ne_nil hne
    have hd : pyIsDigit d = true :=
      List.all_eq_true.mp (hds ▸ hall) d (List.mem_cons_self d ds)
    have hSd : ('S' == d) = false := by
      apply beq_eq_false_iff_ne.mpr
      intro h
      rw [← h] at hd
      exact absurd hd (by decide)
    have hpre : submittedPrefix.isPrefixOf out = false := by
      conv_lhs => rw [rstripNL_split out, hds, List.cons_append]
      show (('S' == d) && _) = false
      rw [hSd, Bool.false_and]
    unfold agent_classify
    rw [if_pos (by rw [hnum, Bool.true_or]), if_neg (by rw [hpre]; exact Bool.false_ne_true),
      pyInt?_digits hne hall]
    rfl
  · intro out sid hpre hint
    unfold agent_classify
    rw [if_pos (by rw [hpre, Bool.or_true]), if_pos hpre, hint]
  · intro out hnum hpre
    unfold agent_classify
    rw [if_neg (by rw [hnum, hpre]; exact Bool.false_ne_true)]
  · intro out n h
    unfold agent_fresh_job_action
    rw [h]
  · intro out h
    unfold agent_fresh_job_action
    rw [h]

/-- Witness for C6: the launch-order theorem applied to the concrete healthy
job, discharging its hypothesis by computation. -/
theorem C6_persist_before_spawn_witness :
    ∃ (status : Status) (rid : String) (ridInt : Int),
      healthyJob.status_read = .parsed status ∧
      pick_queued_run status = some rid ∧
      pyInt? rid.toList = some ridInt ∧
      [DaemonStep.persist (launchUpdate status rid ridInt "2024-01-01T00:00:00"),
       DaemonStep.writeProfile (ensure_profile_lines
         (((findRun (status.runs.getD []) rid).getD emptyRun).requested_resources.getD
           emptyResources)),
       DaemonStep.spawnEngine rid] =
        [DaemonStep.persist (launchUpdate status rid ridInt "2024-01-01T00:00:00"),
         DaemonStep.writeProfile (ensure_profile_lines
           (((findRun (status.runs.getD []) rid).getD emptyRun).requested_resources.getD
             emptyResources)),
         DaemonStep.spawnEngine rid] ∧
      runStateOf (launchUpdate status rid ridInt "2024-01-01T00:00:00") rid =
        some "RUNNING" ∧
      (∃ r1, findRun ((launchUpdate status rid ridInt "2024-01-01T00:00:00").runs.getD [])
          rid = some r1 ∧
        r1.started = some "2024-01-01T00:00:00" ∧
        r1.slurm = some ⟨executorName, [], 0, none⟩) ∧
      (launchUpdate status rid ridInt "2024-01-01T00:00:00").active_run_id = some ridInt ∧
      pick_queued_run (launchUpdate status rid ridInt "2024-01-01T00:00:00") ≠ some rid := by
  have h := C6_persist_before_spawn healthyJob "2024-01-01T00:00:00" _ rfl
  rcases h with ⟨status, rid, ridInt, h1, h2, h3, _, h5, h6, h7, h8⟩
  exact ⟨status, rid, ridInt, h1, h2, h3, rfl, h5, h6, h7, h8⟩

end Snaked
